import Mathlib

/-!
Verification of the spotify-dl command-line downloader (src/index.ts).

The development shallowly embeds the program's data model and operations:
pure helpers become Lean functions, the cooperative concurrent download
pipeline becomes an explicit small-step transition system on a run state,
network effects are supplied by environments (oracles), and fallible
JavaScript code returns Option or Except.
-/

namespace SpotifyDl

/-- JavaScript truthiness of a possibly-absent string: `undefined`/`null`
and the empty string are falsy, every other string is truthy. -/
def jsTruthy : Option String → Bool
  | none => false
  | some s => s != ""

/-- JavaScript `Array.prototype.join(sep)` on an array of strings. -/
def jsJoin (sep : String) (l : List String) : String :=
  String.intercalate sep l

/-- JavaScript `String.prototype.includes(sub)`: substring containment,
decided by trying `sub` as a prefix of every suffix of `s`. -/
def jsIncludes (s sub : String) : Bool :=
  (List.range (s.data.length + 1)).any (fun i => sub.data.isPrefixOf (s.data.drop i))

/-- An artist object as it appears in upstream payloads (only the `name`
field is read by the program). -/
structure Artist where
  name : String
deriving DecidableEq

/-- The program's `SpotifyTrack` record. -/
structure SpotifyTrack where
  id : String
  name : String
  artist : String
deriving DecidableEq

/-- `getArtistFromArtists` from src/index.ts: join the artist names with
a comma-space separator, preserving order. -/
def getArtistFromArtists (artists : List Artist) : String :=
  jsJoin ", " (artists.map Artist.name)

/-- `getTrackName` from src/index.ts. -/
def getTrackName (track : SpotifyTrack) : String :=
  track.name ++ " - " ++ track.artist

/-!
## Access-token acquisition (`getSpotifyAccessToken`)

The global `accessToken` cell is threaded explicitly as an
`Option String` (`none` models `null`/`undefined`).  The endpoint's
behaviour on one call is `resp : Option (Option String)`:
`none` models a network error thrown by `axios.get`, and `some tok`
models a successful HTTP response whose `data.accessToken` field is
`tok` (`some t` when present, `none` when absent).
-/

/-- One call to `getSpotifyAccessToken` from src/index.ts.  Returns the
new cache cell, whether the token endpoint was contacted, and the call's
result (`Except.error` models the rethrown failure). -/
def getSpotifyAccessToken (cache : Option String) (resp : Option (Option String)) :
    Option String × Bool × Except String (Option String) :=
  if jsTruthy cache then
    (cache, false, Except.ok cache)
  else
    match resp with
    | none => (cache, true, Except.error "Failed to get access token")
    | some tok => (tok, true, Except.ok tok)

/-- A sequence of calls to `getSpotifyAccessToken` within one process,
one endpoint behaviour per call; returns the final cache cell, the total
number of times the endpoint was contacted, and each call's result. -/
def runTokenCalls (cache : Option String) :
    List (Option (Option String)) → Option String × Nat × List (Except String (Option String))
  | [] => (cache, 0, [])
  | r :: rs =>
    let c := getSpotifyAccessToken cache r
    let rest := runTokenCalls c.1 rs
    (rest.1, (if c.2.1 then 1 else 0) + rest.2.1, c.2.2 :: rest.2.2)

/-- Whether a call result is a non-error. -/
def tokenCallOk : Except String (Option String) → Bool
  | Except.ok _ => true
  | Except.error _ => false

/-!
## URL parsing (`parseSpotifyUrl`)

A URL is modelled after JavaScript's parsed `URL` object by its
`hostname` and `pathname` components, the only two the function reads.
-/

/-- Split a character list at every occurrence of `c`, JavaScript
`String.prototype.split` style: n separators yield n+1 fields, empty
fields included. -/
def splitOnChar (c : Char) : List Char → List (List Char)
  | [] => [[]]
  | x :: xs =>
    let r := splitOnChar c xs
    if x = c then [] :: r
    else
      match r with
      | [] => [[x]]
      | y :: ys => (x :: y) :: ys

/-- JavaScript `pathname.split("/")` (structurally recursive so that it
evaluates on concrete inputs). -/
def jsSplitPath (s : String) : List String :=
  (splitOnChar (Char.ofNat 47) s.data).map (fun cs => String.mk cs)

/-- The two components of a parsed `URL` object read by the program. -/
structure SpotifyUrl where
  hostname : String
  pathname : String
deriving DecidableEq

/-- `parseSpotifyUrl` from src/index.ts: check that the hostname contains
"spotify.com", split the pathname on "/", read parts 1 and 2 (absent
parts behave as falsy `undefined`), and accept exactly when part 1 is
"album" or "playlist" and part 2 is truthy. -/
def parseSpotifyUrl (u : SpotifyUrl) : Except String (String × String) :=
  if jsIncludes u.hostname "spotify.com" = false then
    Except.error "Invalid domain. Only Spotify URLs are supported."
  else
    let pathParts := jsSplitPath u.pathname
    let ty := pathParts[1]?
    let id := pathParts[2]?
    if (ty == some "album" || ty == some "playlist") && jsTruthy id then
      Except.ok (ty.getD "", id.getD "")
    else
      Except.error "Invalid Spotify URL. Must be a valid album or playlist URL."

/-- Modelled from the spec: the phrase "path matches /(album|playlist)/(id)
with a non-empty id" read literally, i.e. the pathname consists of exactly
a leading slash, a resource type that is "album" or "playlist", one more
slash, and a non-empty slash-free id. -/
def pathMatchesSpec (p : String) : Bool :=
  match jsSplitPath p with
  | ["", ty, id] => (ty == "album" || ty == "playlist") && id != ""
  | _ => false

/-!
## Raw items and track normalization (`getTracks`)

A raw item from an upstream listing page is a record whose fields may be
absent (`Option`): album pages carry tracks directly (flat), playlist
pages nest a track object under `track` (wrapped).  Reading `track.id`
when `track` is absent is a JavaScript `TypeError`; `getTracks` therefore
returns `Option`, `none` modelling that crash.
-/

/-- A nested track object inside a wrapped (playlist) item. -/
structure RawTrack where
  id : String
  name : String
  artists : List Artist
deriving DecidableEq

/-- A raw item of an upstream listing page. -/
structure RawItem where
  id : Option String
  name : String
  artists : List Artist
  track : Option RawTrack
deriving DecidableEq

/-- The body of the mapping in `getTracks` from src/index.ts: branch on
the truthiness of `id`; the flat branch reads the item's own fields, the
wrapped branch reads `track.id`, `track.name`, `track.artists`. -/
def getTrackOfItem (it : RawItem) : Option SpotifyTrack :=
  if jsTruthy it.id then
    some { id := it.id.getD "", name := it.name, artist := getArtistFromArtists it.artists }
  else
    match it.track with
    | some t => some { id := t.id, name := t.name, artist := getArtistFromArtists t.artists }
    | none => none

/-- `getTracks` from src/index.ts: map `getTrackOfItem` over the items;
a crash on any item crashes the whole call. -/
def getTracks : List RawItem → Option (List SpotifyTrack)
  | [] => some []
  | it :: rest =>
    match getTrackOfItem it, getTracks rest with
    | some t, some ts => some (t :: ts)
    | _, _ => none

/-- Modelled from the spec: one item normalizes by shape — a wrapped item
(playlist entry nesting a track object) normalizes from the nested object,
a flat item (a track directly) from its own fields; either way the artist
field is the comma-joined list of contributing-artist names in order. -/
def specNormalizeItem (it : RawItem) : Option SpotifyTrack :=
  match it.track with
  | some t => some { id := t.id, name := t.name, artist := jsJoin ", " (t.artists.map Artist.name) }
  | none =>
    match it.id with
    | some i => some { id := i, name := it.name, artist := jsJoin ", " (it.artists.map Artist.name) }
    | none => none

/-- Modelled from the spec: normalize every item of a listing, in order. -/
def specNormalizeItems : List RawItem → Option (List SpotifyTrack)
  | [] => some []
  | it :: rest =>
    match specNormalizeItem it, specNormalizeItems rest with
    | some t, some ts => some (t :: ts)
    | _, _ => none

/-- An item is well-shaped when it is flat (truthy own id, no nested
track) or wrapped (no own id, a nested track object). -/
def WellShapedItem (it : RawItem) : Prop :=
  (jsTruthy it.id = true ∧ it.track = none) ∨ (it.id = none ∧ it.track.isSome = true)

instance (it : RawItem) : Decidable (WellShapedItem it) := by
  unfold WellShapedItem
  infer_instance

/-!
## Pagination (`getSpotifyResource`, tracks part)

The paginated listing is modelled as the finite chain of pages the
`next` links denote: the first response's `tracks.items` plus the list
of each followed page's `items`, in fetch order.
-/

/-- The `while (next)` accumulation loop of `getSpotifyResource` in
src/index.ts, with `acc` the tracks accumulated so far. -/
def accumulatePages : List (List RawItem) → List SpotifyTrack → Option (List SpotifyTrack)
  | [], acc => some acc
  | items :: rest, acc =>
    match getTracks items with
    | some ts => accumulatePages rest (acc ++ ts)
    | none => none

/-- The track-list computation of `getSpotifyResource` from src/index.ts:
normalize the first page's items, then follow the page chain, appending
each page's normalized items. -/
def getSpotifyResourceTracks (firstItems : List RawItem) (restPages : List (List RawItem)) :
    Option (List SpotifyTrack) :=
  match getTracks firstItems with
  | some ts => accumulatePages restPages ts
  | none => none

/-- Per-page normalized track lists of a page chain, in page order. -/
def tracksPerPage : List (List RawItem) → Option (List (List SpotifyTrack))
  | [] => some []
  | p :: ps =>
    match getTracks p, tracksPerPage ps with
    | some ts, some tss => some (ts :: tss)
    | _, _ => none

/-!
## Single-track download (`downloadTrack`)

The filesystem is an association list from paths to file contents; a
file holds an audio payload (an abstract `Nat`) and, once tag embedding
has succeeded, a tag record.  The network and the tag library are an
environment: the lookup response, a function from URL to fetched binary
(`none` models a failed request), the `NodeID3.write` result, and the
`sanitize-filename` function, all opaque to the program.
-/

/-- Tag fields embedded by `NodeID3.write` in src/index.ts. -/
structure TagRecord where
  title : String
  artist : String
  album : String
  imageBuffer : Nat
  trackNumber : Option String
deriving DecidableEq

/-- The `metadata` object of a lookup response. -/
structure TrackMetadata where
  title : String
  artists : String
  album : String
  cover : String
deriving DecidableEq

/-- A response from the audio-lookup service. -/
structure LookupResponse where
  success : Bool
  metadata : Option TrackMetadata
  link : String
deriving DecidableEq

/-- File contents: the written audio payload and the embedded tags, if
tag embedding has succeeded. -/
abbrev FileData : Type := Nat × Option TagRecord

/-- The filesystem seen by `downloadTrack`: paths mapped to contents. -/
abbrev FS : Type := List (String × FileData)

/-- `fs.writeFile`: overwrite the file at `p` if present, else append it. -/
def fsWrite (fs : FS) (p : String) (d : FileData) : FS :=
  if fs.any (fun e => e.1 == p) then
    fs.map (fun e => if e.1 == p then (p, d) else e)
  else
    fs ++ [(p, d)]

/-- Read the contents of the file at `p`, if any. -/
def fsLookup (fs : FS) (p : String) : Option FileData :=
  (fs.find? (fun e => e.1 == p)).map Prod.snd

/-- The environment of one `downloadTrack` call. -/
structure DownloadEnv where
  resp : Option LookupResponse
  fetchBinary : String → Option Nat
  tagWriteOk : Bool
  san : String → String

/-- `downloadTrack` from src/index.ts: query the lookup service, check
`success && metadata`, fetch the audio and cover binaries, write the
audio file, then embed tags; a false `NodeID3.write` result raises the
tagging error after the file has been written, and no path deletes a
file. -/
def downloadTrack (env : DownloadEnv) (track : SpotifyTrack) (saveTo : String)
    (index : Option Nat) (fs : FS) : FS × Except String Unit :=
  match env.resp with
  | none => (fs, Except.error "request failed")
  | some resp =>
    match resp.success, resp.metadata with
    | true, some md =>
      let filename := env.san (getTrackName track ++ ".mp3")
      match env.fetchBinary resp.link with
      | none => (fs, Except.error "request failed")
      | some mp3Buffer =>
        match env.fetchBinary md.cover with
        | none => (fs, Except.error "request failed")
        | some coverBuffer =>
          let filePath := saveTo ++ "/" ++ filename
          let fs1 := fsWrite fs filePath (mp3Buffer, none)
          let tags : TagRecord :=
            { title := md.title, artist := md.artists, album := md.album,
              imageBuffer := coverBuffer,
              trackNumber := index.map (fun i => toString (i + 1)) }
          if env.tagWriteOk then
            (fsWrite fs1 filePath (mp3Buffer, some tags), Except.ok ())
          else
            (fs1, Except.error ("Failed to tag the MP3 file: " ++ filename))
    | _, _ => (fs, Except.error "Failed to retrieve track metadata")

/-!
## The concurrent download run

The command handler builds one job per track and lets a bounded queue
run them; each job is the retry `while` loop around `downloadTrack`.
Shared state is only touched in synchronous blocks between awaits, so
one loop iteration of one job is one atomic step; the scheduler's
freedom is which unsettled job performs its next iteration.  A job's
`downloadTrack` outcomes are an oracle `outcome : Nat → Bool` giving the
result of each attempt (`true` = the pipeline succeeded).
-/

/-- `maxRetries` from src/index.ts. -/
def maxRetries : Nat := 5

/-- The control state of one job's retry loop: still looping with the
current value of `attempt`, or settled in one of the two terminal
states. -/
inductive JobState where
  | active (attempt : Nat)
  | succeeded
  | exhausted
deriving DecidableEq

/-- Whether a job state is terminal. -/
def JobState.isSettled : JobState → Bool
  | JobState.active _ => false
  | _ => true

/-- One per-track job: its track, its attempt-outcome oracle, and its
loop state. -/
structure Job where
  track : SpotifyTrack
  outcome : Nat → Bool
  state : JobState

/-- The run's shared state: the `downloadStatus` aggregate, the job pool,
and how many times the final summary block has been printed. -/
structure RunState where
  expectedCount : Nat
  jobs : List Job
  success : List SpotifyTrack
  failures : List SpotifyTrack
  summaryCount : Nat

/-- The state at `queue.addAll`: one active job per track (the oracle for
job `i` is `oc i`), empty `success` and `failures`, no summary printed. -/
def initState (tracks : List SpotifyTrack) (oc : Nat → Nat → Bool) : RunState :=
  { expectedCount := tracks.length
    jobs := tracks.enum.map (fun p => { track := p.2, outcome := oc p.1, state := JobState.active 0 })
    success := []
    failures := []
    summaryCount := 0 }

/-- The `finally` block's summary check: after `bar.update` sets the bar
value to `success.length + failures.length`, `bar.getProgress() === 1`
holds exactly when that value equals the bar total `expectedCount`, and
then the summary block is printed. -/
def emitSummary (s : RunState) : RunState :=
  if s.success.length + s.failures.length = s.expectedCount then
    { s with summaryCount := s.summaryCount + 1 }
  else s

/-- One iteration of the retry `while` loop of job `j` (stored at index
`i`) at the current `attempt` value `a`: on success push the track to
`success` and leave the loop; on failure increment `attempt`, and when it
reaches `maxRetries` push the track to `failures` and leave the loop;
the `finally` block runs in every case. -/
def runIter (s : RunState) (i : Nat) (j : Job) (a : Nat) : RunState :=
  if j.outcome a then
    emitSummary { s with
      jobs := s.jobs.set i { j with state := JobState.succeeded }
      success := s.success ++ [j.track] }
  else if a + 1 = maxRetries then
    emitSummary { s with
      jobs := s.jobs.set i { j with state := JobState.exhausted }
      failures := s.failures ++ [j.track] }
  else
    emitSummary { s with jobs := s.jobs.set i { j with state := JobState.active (a + 1) } }

/-- Let job `i` run its next loop iteration, when it exists and is not
settled. -/
def stepAt (i : Nat) (s : RunState) : Option RunState :=
  match s.jobs[i]? with
  | some j =>
    match j.state with
    | JobState.active a => some (runIter s i j a)
    | _ => none
  | none => none

/-- The scheduler nondeterministically picks an unsettled job for the
next iteration. -/
def Step (s s' : RunState) : Prop := ∃ i, stepAt i s = some s'

/-- All interleavings of the run. -/
def Reachable : RunState → RunState → Prop := Relation.ReflTransGen Step

/-- Run a concrete schedule (a list of job indices; choices that name a
settled or missing job are skipped). -/
def runSchedule : List Nat → RunState → RunState
  | [], s => s
  | i :: rest, s =>
    match stepAt i s with
    | some s' => runSchedule rest s'
    | none => runSchedule rest s

/-- Every job has settled. -/
def allSettledB (s : RunState) : Bool :=
  s.jobs.all (fun j => j.state.isSettled)

/-!
## The run driver

`parseSpotifyUrl` and resolution happen first; then the handler builds
the destination directory path, ensures it exists, and only then
enqueues the jobs.  The driver model records the ensured directory and
the final run state of a given schedule.
-/

/-- The variant part of a resolved resource. -/
inductive ResourceInfo where
  | album (title artist : String)
  | playlist (name owner : String)
deriving DecidableEq

/-- A resolved resource. -/
structure SpotifyResource where
  id : String
  info : ResourceInfo
  tracks : List SpotifyTrack

/-- The `subPath` computation of the command handler in src/index.ts. -/
def subPathOf (san : String → String) (data : SpotifyResource) : String :=
  match data.info with
  | ResourceInfo.album title artist => "albums/" ++ san (artist ++ " - " ++ title)
  | ResourceInfo.playlist name owner => "playlists/" ++ san (owner ++ " - " ++ name)

/-- The `fullPath` passed to `fs.ensureDir` in src/index.ts. -/
def fullPathOf (san : String → String) (customPath : String) (data : SpotifyResource) : String :=
  customPath ++ "/spotify-dl/" ++ subPathOf san data

/-- The command handler after resolution: ensure the destination
directory (first component), then run the jobs under a schedule. -/
def runDriver (san : String → String) (customPath : String) (data : SpotifyResource)
    (oc : Nat → Nat → Bool) (sched : List Nat) : String × RunState :=
  (fullPathOf san customPath data, runSchedule sched (initState data.tracks oc))

/-!
## Run invariants
-/

/-- Tracks of jobs settled as successes. -/
def succTracks (l : List Job) : List SpotifyTrack :=
  l.filterMap (fun j => if j.state = JobState.succeeded then some j.track else none)

/-- Tracks of jobs settled as exhausted failures. -/
def exhTracks (l : List Job) : List SpotifyTrack :=
  l.filterMap (fun j => if j.state = JobState.exhausted then some j.track else none)

/-- Number of settled jobs. -/
def settledCount (l : List Job) : Nat :=
  l.countP (fun j => j.state.isSettled)

/-- Per-job consistency: an active job at `attempt = a` has failed
attempts `0..a-1` and has retries left; a succeeded job succeeded at
some attempt below `maxRetries`, all earlier attempts failing; an
exhausted job failed all `maxRetries` attempts. -/
def ConsistentJob (j : Job) : Prop :=
  match j.state with
  | JobState.active a => a < maxRetries ∧ ∀ k, k < a → j.outcome k = false
  | JobState.succeeded => ∃ k, k < maxRetries ∧ j.outcome k = true ∧ ∀ m, m < k → j.outcome m = false
  | JobState.exhausted => ∀ k, k < maxRetries → j.outcome k = false

/-- The run invariant, relative to the resolved track list. -/
structure Inv (tracks : List SpotifyTrack) (s : RunState) : Prop where
  hexp : s.expectedCount = tracks.length
  htr : s.jobs.map Job.track = tracks
  hsucc : s.success.Perm (succTracks s.jobs)
  hfail : s.failures.Perm (exhTracks s.jobs)
  hcons : ∀ j ∈ s.jobs, ConsistentJob j
  hsum : s.summaryCount =
    if 0 < s.expectedCount ∧ settledCount s.jobs = s.expectedCount then 1 else 0

lemma emitSummary_expectedCount (s : RunState) : (emitSummary s).expectedCount = s.expectedCount := by
  unfold emitSummary; split <;> rfl

lemma emitSummary_jobs (s : RunState) : (emitSummary s).jobs = s.jobs := by
  unfold emitSummary; split <;> rfl

lemma emitSummary_success (s : RunState) : (emitSummary s).success = s.success := by
  unfold emitSummary; split <;> rfl

lemma emitSummary_failures (s : RunState) : (emitSummary s).failures = s.failures := by
  unfold emitSummary; split <;> rfl

lemma emitSummary_summaryCount (s : RunState) :
    (emitSummary s).summaryCount =
      if s.success.length + s.failures.length = s.expectedCount then s.summaryCount + 1
      else s.summaryCount := by
  unfold emitSummary; split <;> rfl

lemma succTracks_append_cons (l₁ : List Job) (x : Job) (l₂ : List Job) :
    succTracks (l₁ ++ x :: l₂) =
      succTracks l₁ ++ ((if x.state = JobState.succeeded then [x.track] else []) ++ succTracks l₂) := by
  by_cases hx : x.state = JobState.succeeded <;>
    simp [succTracks, List.filterMap_append, List.filterMap_cons, hx]

lemma exhTracks_append_cons (l₁ : List Job) (x : Job) (l₂ : List Job) :
    exhTracks (l₁ ++ x :: l₂) =
      exhTracks l₁ ++ ((if x.state = JobState.exhausted then [x.track] else []) ++ exhTracks l₂) := by
  by_cases hx : x.state = JobState.exhausted <;>
    simp [exhTracks, List.filterMap_append, List.filterMap_cons, hx]

lemma settledCount_append_cons (l₁ : List Job) (x : Job) (l₂ : List Job) :
    settledCount (l₁ ++ x :: l₂) =
      settledCount l₁ + settledCount l₂ + (if x.state.isSettled then 1 else 0) := by
  by_cases hx : x.state.isSettled <;>
    simp [settledCount, List.countP_append, List.countP_cons, hx] <;> omega

lemma sum_lengths_eq_settledCount (l : List Job) :
    (succTracks l).length + (exhTracks l).length = settledCount l := by
  induction l with
  | nil => rfl
  | cons x l ih =>
    simp only [succTracks, exhTracks, settledCount, List.filterMap_cons, List.countP_cons] at ih ⊢
    cases hx : x.state with
    | active a =>
      simp [hx, show JobState.isSettled (JobState.active a) = false from rfl]; omega
    | succeeded =>
      simp [hx, show JobState.isSettled JobState.succeeded = true from rfl]; omega
    | exhausted =>
      simp [hx, show JobState.isSettled JobState.exhausted = true from rfl]; omega

lemma settled_partition (l : List Job) (h : ∀ j ∈ l, j.state.isSettled = true) :
    (succTracks l ++ exhTracks l).Perm (l.map Job.track) := by
  induction l with
  | nil => simp [succTracks, exhTracks]
  | cons x l ih =>
    have hx := h x (List.mem_cons_self x l)
    have ih' := ih (fun j hj => h j (List.mem_cons_of_mem x hj))
    cases hst : x.state with
    | active a => rw [hst] at hx; simp [JobState.isSettled] at hx
    | succeeded =>
      simp only [succTracks, exhTracks, List.filterMap_cons, hst, List.map_cons,
        List.cons_append] at ih' ⊢
      simp only [reduceIte]
      exact (List.perm_cons x.track).mpr ih'
    | exhausted =>
      simp only [succTracks, exhTracks, List.filterMap_cons, hst, List.map_cons] at ih' ⊢
      simp only [reduceIte]
      exact (List.perm_middle).trans ((List.perm_cons x.track).mpr ih')

lemma initState_jobs_state (tracks : List SpotifyTrack) (oc : Nat → Nat → Bool) :
    ∀ j ∈ (initState tracks oc).jobs, j.state = JobState.active 0 := by
  intro j hj
  simp only [initState] at hj
  obtain ⟨p, _, rfl⟩ := List.mem_map.mp hj
  rfl

lemma inv_init (tracks : List SpotifyTrack) (oc : Nat → Nat → Bool) :
    Inv tracks (initState tracks oc) := by
  have hstates := initState_jobs_state tracks oc
  have hsuccnil : succTracks (initState tracks oc).jobs = [] := by
    apply List.filterMap_eq_nil_iff.mpr
    intro j hj
    simp [hstates j hj]
  have hexhnil : exhTracks (initState tracks oc).jobs = [] := by
    apply List.filterMap_eq_nil_iff.mpr
    intro j hj
    simp [hstates j hj]
  have hsc : settledCount (initState tracks oc).jobs = 0 := by
    apply List.countP_eq_zero.mpr
    intro j hj
    simp [hstates j hj, JobState.isSettled]
  refine ⟨rfl, ?_, ?_, ?_, ?_, ?_⟩
  · simp only [initState, List.map_map]
    have : (Job.track ∘ fun p : Nat × SpotifyTrack =>
        ({ track := p.2, outcome := oc p.1, state := JobState.active 0 } : Job)) = Prod.snd := rfl
    rw [this, List.enum_map_snd]
  · rw [hsuccnil]
    exact List.Perm.refl _
  · rw [hexhnil]
    exact List.Perm.refl _
  · intro j hj
    have h0 := hstates j hj
    simp only [ConsistentJob, h0]
    refine ⟨by simp [maxRetries], fun k hk => absurd hk (by omega)⟩
  · rw [hsc]
    have hexp : (initState tracks oc).expectedCount = tracks.length := rfl
    rw [hexp, if_neg (by rintro ⟨h1, h2⟩; omega)]
    rfl

lemma inv_emit (tracks : List SpotifyTrack) (X : RunState)
    (h0 : 0 < X.expectedCount)
    (h1 : X.expectedCount = tracks.length)
    (h2 : X.jobs.map Job.track = tracks)
    (h3 : X.success.Perm (succTracks X.jobs))
    (h4 : X.failures.Perm (exhTracks X.jobs))
    (h5 : ∀ j ∈ X.jobs, ConsistentJob j)
    (h6 : X.summaryCount = 0) :
    Inv tracks (emitSummary X) := by
  have hsl : X.success.length + X.failures.length = settledCount X.jobs := by
    rw [h3.length_eq, h4.length_eq, sum_lengths_eq_settledCount]
  refine ⟨?_, ?_, ?_, ?_, ?_, ?_⟩
  · rw [emitSummary_expectedCount]; exact h1
  · rw [emitSummary_jobs]; exact h2
  · rw [emitSummary_success, emitSummary_jobs]; exact h3
  · rw [emitSummary_failures, emitSummary_jobs]; exact h4
  · rw [emitSummary_jobs]; exact h5
  · rw [emitSummary_summaryCount, emitSummary_jobs, emitSummary_expectedCount, h6, hsl]
    by_cases hc : settledCount X.jobs = X.expectedCount
    · rw [if_pos hc, if_pos ⟨h0, hc⟩]
    · rw [if_neg hc, if_neg (by rintro ⟨_, hh⟩; exact hc hh)]

theorem inv_step {tracks : List SpotifyTrack} {s s' : RunState} {i : Nat}
    (hinv : Inv tracks s) (hstep : stepAt i s = some s') : Inv tracks s' := by
  unfold stepAt at hstep
  cases hj : s.jobs[i]? with
  | none => simp only [hj] at hstep; exact Option.noConfusion hstep
  | some j =>
    simp only [hj] at hstep
    cases hst : j.state with
    | succeeded => simp only [hst] at hstep; exact Option.noConfusion hstep
    | exhausted => simp only [hst] at hstep; exact Option.noConfusion hstep
    | active a =>
      simp only [hst, Option.some.injEq] at hstep
      subst hstep
      obtain ⟨hi, hji⟩ := List.getElem?_eq_some.mp hj
      have hdec : s.jobs = s.jobs.take i ++ j :: s.jobs.drop (i + 1) := by
        have hdec0 : s.jobs = s.jobs.take i ++ s.jobs[i] :: s.jobs.drop (i + 1) := by
          conv_lhs => rw [← List.take_append_drop i s.jobs]
          rw [List.getElem_cons_drop]
        rw [hji] at hdec0
        exact hdec0
      have hset : ∀ j' : Job, s.jobs.set i j' = s.jobs.take i ++ j' :: s.jobs.drop (i + 1) :=
        fun j' => List.set_eq_take_cons_drop j' hi
      have hmemj : j ∈ s.jobs := by
        rw [hdec]; exact List.mem_append_right _ (List.mem_cons_self _ _)
      have hconsj := hinv.hcons j hmemj
      rw [ConsistentJob, hst] at hconsj
      obtain ⟨halt, hprev⟩ := hconsj
      have hlenjobs : s.jobs.length = tracks.length := by
        rw [← hinv.htr, List.length_map]
      have hlen12 : (s.jobs.take i).length + (s.jobs.drop (i + 1)).length + 1 = tracks.length := by
        rw [← hlenjobs]
        conv_rhs => rw [hdec]
        simp [List.length_append]
        omega
      have hsplitS : succTracks s.jobs =
          succTracks (s.jobs.take i) ++ succTracks (s.jobs.drop (i + 1)) := by
        conv_lhs => rw [hdec]
        rw [succTracks_append_cons]
        simp [hst]
      have hsplitE : exhTracks s.jobs =
          exhTracks (s.jobs.take i) ++ exhTracks (s.jobs.drop (i + 1)) := by
        conv_lhs => rw [hdec]
        rw [exhTracks_append_cons]
        simp [hst]
      have hsplitC : settledCount s.jobs =
          settledCount (s.jobs.take i) + settledCount (s.jobs.drop (i + 1)) := by
        conv_lhs => rw [hdec]
        rw [settledCount_append_cons]
        simp [hst, show JobState.isSettled (JobState.active a) = false from rfl]
      have hSClt : settledCount s.jobs < tracks.length := by
        have c1 := List.countP_le_length (fun j : Job => j.state.isSettled) (l := s.jobs.take i)
        have c2 := List.countP_le_length (fun j : Job => j.state.isSettled) (l := s.jobs.drop (i + 1))
        rw [hsplitC]
        simp only [settledCount]
        omega
      have hsum0 : s.summaryCount = 0 := by
        rw [hinv.hsum, if_neg]
        rintro ⟨h1, h2⟩
        rw [hinv.hexp] at h2
        omega
      have hpos : 0 < s.expectedCount := by
        rw [hinv.hexp]; omega
      have hmem_of : ∀ jj : Job, jj ∈ s.jobs.take i ∨ jj ∈ s.jobs.drop (i + 1) → jj ∈ s.jobs := by
        intro jj hjj
        rw [hdec]
        rcases hjj with h | h
        · exact List.mem_append_left _ h
        · exact List.mem_append_right _ (List.mem_cons_of_mem _ h)
      cases ho : j.outcome a with
      | true =>
        rw [runIter, if_pos ho]
        refine inv_emit tracks _ ?_ ?_ ?_ ?_ ?_ ?_ ?_
        · exact hpos
        · exact hinv.hexp
        · rw [hset]
          conv_rhs => rw [← hinv.htr, hdec]
          simp
        · rw [hset, succTracks_append_cons]
          simp only [reduceIte]
          have p1 : s.success.Perm
              (succTracks (s.jobs.take i) ++ succTracks (s.jobs.drop (i + 1))) :=
            hsplitS ▸ hinv.hsucc
          have p2 := p1.append_right [j.track]
          refine p2.trans ?_
          refine (List.perm_append_singleton _ _).trans ?_
          exact List.perm_middle.symm
        · rw [hset, exhTracks_append_cons]
          simp only [reduceIte]
          exact (hsplitE ▸ hinv.hfail).trans (List.Perm.refl _)
        · intro jj hjj
          rw [hset] at hjj
          rcases List.mem_append.mp hjj with h | h
          · exact hinv.hcons jj (hmem_of jj (Or.inl h))
          · rcases List.mem_cons.mp h with rfl | h
            · rw [ConsistentJob]
              exact ⟨a, halt, ho, hprev⟩
            · exact hinv.hcons jj (hmem_of jj (Or.inr h))
        · exact hsum0
      | false =>
        rw [runIter, if_neg (by simp [ho])]
        by_cases hfin : a + 1 = maxRetries
        · rw [if_pos hfin]
          refine inv_emit tracks _ ?_ ?_ ?_ ?_ ?_ ?_ ?_
          · exact hpos
          · exact hinv.hexp
          · rw [hset]
            conv_rhs => rw [← hinv.htr, hdec]
            simp
          · rw [hset, succTracks_append_cons]
            simp only [reduceIte]
            exact (hsplitS ▸ hinv.hsucc).trans (List.Perm.refl _)
          · rw [hset, exhTracks_append_cons]
            simp only [reduceIte]
            have p1 : s.failures.Perm
                (exhTracks (s.jobs.take i) ++ exhTracks (s.jobs.drop (i + 1))) :=
              hsplitE ▸ hinv.hfail
            have p2 := p1.append_right [j.track]
            refine p2.trans ?_
            refine (List.perm_append_singleton _ _).trans ?_
            exact List.perm_middle.symm
          · intro jj hjj
            rw [hset] at hjj
            rcases List.mem_append.mp hjj with h | h
            · exact hinv.hcons jj (hmem_of jj (Or.inl h))
            · rcases List.mem_cons.mp h with rfl | h
              · rw [ConsistentJob]
                intro k hk
                rcases Nat.lt_succ_iff_lt_or_eq.mp (by omega : k < a + 1) with hk' | rfl
                · exact hprev k hk'
                · exact ho
              · exact hinv.hcons jj (hmem_of jj (Or.inr h))
          · exact hsum0
        · rw [if_neg hfin]
          refine inv_emit tracks _ ?_ ?_ ?_ ?_ ?_ ?_ ?_
          · exact hpos
          · exact hinv.hexp
          · rw [hset]
            conv_rhs => rw [← hinv.htr, hdec]
            simp
          · rw [hset, succTracks_append_cons]
            simp only [reduceIte]
            exact (hsplitS ▸ hinv.hsucc).trans (List.Perm.refl _)
          · rw [hset, exhTracks_append_cons]
            simp only [reduceIte]
            exact (hsplitE ▸ hinv.hfail).trans (List.Perm.refl _)
          · intro jj hjj
            rw [hset] at hjj
            rcases List.mem_append.mp hjj with h | h
            · exact hinv.hcons jj (hmem_of jj (Or.inl h))
            · rcases List.mem_cons.mp h with rfl | h
              · rw [ConsistentJob]
                refine ⟨by omega, ?_⟩
                intro k hk
                rcases Nat.lt_succ_iff_lt_or_eq.mp hk with hk' | rfl
                · exact hprev k hk'
                · exact ho
              · exact hinv.hcons jj (hmem_of jj (Or.inr h))
          · exact hsum0

theorem reachable_inv {tracks : List SpotifyTrack} {oc : Nat → Nat → Bool} {s : RunState}
    (h : Reachable (initState tracks oc) s) : Inv tracks s := by
  induction h with
  | refl => exact inv_init tracks oc
  | tail hsteps hstep ih =>
    obtain ⟨i, hi⟩ := hstep
    exact inv_step ih hi

lemma reachable_runSchedule (sched : List Nat) (s : RunState) :
    Reachable s (runSchedule sched s) := by
  induction sched generalizing s with
  | nil => exact Relation.ReflTransGen.refl
  | cons i rest ih =>
    rw [runSchedule]
    cases h : stepAt i s with
    | none => exact ih s
    | some s' => exact Relation.ReflTransGen.head ⟨i, h⟩ (ih s')

lemma step_shape {s s' : RunState} {i : Nat} (hstep : stepAt i s = some s') :
    ∃ j a, s.jobs[i]? = some j ∧ j.state = JobState.active a ∧ s' = runIter s i j a := by
  unfold stepAt at hstep
  cases hj : s.jobs[i]? with
  | none => simp only [hj] at hstep; exact Option.noConfusion hstep
  | some j =>
    simp only [hj] at hstep
    cases hst : j.state with
    | succeeded => simp only [hst] at hstep; exact Option.noConfusion hstep
    | exhausted => simp only [hst] at hstep; exact Option.noConfusion hstep
    | active a =>
      simp only [hst, Option.some.injEq] at hstep
      exact ⟨j, a, rfl, hst, hstep.symm⟩

/-- Remaining attempts a job may still consume. -/
def jobFuel (j : Job) : Nat :=
  match j.state with
  | JobState.active a => maxRetries - a
  | _ => 0

/-- Total remaining attempts of the run. -/
def fuel (l : List Job) : Nat := (l.map jobFuel).sum

lemma fuel_append_cons (l₁ : List Job) (x : Job) (l₂ : List Job) :
    fuel (l₁ ++ x :: l₂) = fuel l₁ + fuel l₂ + jobFuel x := by
  simp [fuel, List.map_append, List.sum_append]
  omega

lemma step_fuel {tracks : List SpotifyTrack} {s s' : RunState} {i : Nat}
    (hinv : Inv tracks s) (hstep : stepAt i s = some s') : fuel s'.jobs < fuel s.jobs := by
  obtain ⟨j, a, hj, hst, rfl⟩ := step_shape hstep
  obtain ⟨hi, hji⟩ := List.getElem?_eq_some.mp hj
  have hdec : s.jobs = s.jobs.take i ++ j :: s.jobs.drop (i + 1) := by
    have hdec0 : s.jobs = s.jobs.take i ++ s.jobs[i] :: s.jobs.drop (i + 1) := by
      conv_lhs => rw [← List.take_append_drop i s.jobs]
      rw [List.getElem_cons_drop]
    rw [hji] at hdec0
    exact hdec0
  have hset : ∀ j' : Job, s.jobs.set i j' = s.jobs.take i ++ j' :: s.jobs.drop (i + 1) :=
    fun j' => List.set_eq_take_cons_drop j' hi
  have hmemj : j ∈ s.jobs := by
    rw [hdec]; exact List.mem_append_right _ (List.mem_cons_self _ _)
  have hconsj := hinv.hcons j hmemj
  rw [ConsistentJob, hst] at hconsj
  have halt : a < maxRetries := hconsj.1
  have hfj : jobFuel j = maxRetries - a := by rw [jobFuel, hst]
  have hmax : maxRetries = 5 := rfl
  cases ho : j.outcome a with
  | true =>
    rw [runIter, if_pos ho, emitSummary_jobs]
    simp only
    rw [hset, fuel_append_cons]
    conv_rhs => rw [hdec, fuel_append_cons]
    have : jobFuel { j with state := JobState.succeeded } = 0 := rfl
    rw [this, hfj]
    omega
  | false =>
    rw [runIter, if_neg (by simp [ho])]
    by_cases hfin : a + 1 = maxRetries
    · rw [if_pos hfin, emitSummary_jobs]
      simp only
      rw [hset, fuel_append_cons]
      conv_rhs => rw [hdec, fuel_append_cons]
      have : jobFuel { j with state := JobState.exhausted } = 0 := rfl
      rw [this, hfj]
      omega
    · rw [if_neg hfin, emitSummary_jobs]
      simp only
      rw [hset, fuel_append_cons]
      conv_rhs => rw [hdec, fuel_append_cons]
      have : jobFuel { j with state := JobState.active (a + 1) } = maxRetries - (a + 1) := rfl
      rw [this, hfj]
      omega

lemma exists_step_of_not_settled {s : RunState} (hall : ¬ allSettledB s = true) :
    ∃ i j a, s.jobs[i]? = some j ∧ j.state = JobState.active a ∧
      stepAt i s = some (runIter s i j a) := by
  rw [allSettledB, List.all_eq_true] at hall
  push_neg at hall
  obtain ⟨j, hmem, hns⟩ := hall
  obtain ⟨i, hi, hji⟩ := List.mem_iff_getElem.mp hmem
  cases hst : j.state with
  | succeeded => rw [hst] at hns; simp [JobState.isSettled] at hns
  | exhausted => rw [hst] at hns; simp [JobState.isSettled] at hns
  | active a =>
    have hj : s.jobs[i]? = some j := by rw [List.getElem?_eq_getElem hi, hji]
    refine ⟨i, j, a, hj, hst, ?_⟩
    simp only [stepAt, hj, hst]

lemma progress_aux (n : Nat) (tracks : List SpotifyTrack) (oc : Nat → Nat → Bool)
    (s : RunState) (hf : fuel s.jobs ≤ n) (hr : Reachable (initState tracks oc) s) :
    ∃ s', Reachable s s' ∧ allSettledB s' = true := by
  induction n generalizing s with
  | zero =>
    by_cases hall : allSettledB s = true
    · exact ⟨s, Relation.ReflTransGen.refl, hall⟩
    · obtain ⟨i, j, a, hj, hst, hstep⟩ := exists_step_of_not_settled hall
      have hlt := step_fuel (reachable_inv hr) hstep
      omega
  | succ n ih =>
    by_cases hall : allSettledB s = true
    · exact ⟨s, Relation.ReflTransGen.refl, hall⟩
    · obtain ⟨i, j, a, hj, hst, hstep⟩ := exists_step_of_not_settled hall
      have hlt := step_fuel (reachable_inv hr) hstep
      have hr' : Reachable (initState tracks oc) (runIter s i j a) :=
        Relation.ReflTransGen.tail hr ⟨i, hstep⟩
      obtain ⟨s'', hr2, hall2⟩ := ih (runIter s i j a) (by omega) hr'
      exact ⟨s'', Relation.ReflTransGen.head ⟨i, hstep⟩ hr2, hall2⟩

lemma run_progress {tracks : List SpotifyTrack} {oc : Nat → Nat → Bool} {s : RunState}
    (hr : Reachable (initState tracks oc) s) :
    ∃ s', Reachable s s' ∧ allSettledB s' = true :=
  progress_aux (fuel s.jobs) tracks oc s (Nat.le_refl _) hr

lemma reachable_empty {oc : Nat → Nat → Bool} {s : RunState}
    (h : Reachable (initState [] oc) s) : s = initState [] oc := by
  induction h with
  | refl => rfl
  | tail hsteps hstep ih =>
    obtain ⟨i, hi⟩ := hstep
    rw [ih] at hi
    obtain ⟨j, a, hj, _, _⟩ := step_shape hi
    simp [initState] at hj

lemma runTokenCalls_cached (cache : Option String) (ht : jsTruthy cache = true)
    (resps : List (Option (Option String))) :
    runTokenCalls cache resps = (cache, 0, resps.map (fun _ => Except.ok cache)) := by
  induction resps with
  | nil => rfl
  | cons r rs ih =>
    simp [runTokenCalls, getSpotifyAccessToken, ht, ih]

lemma jsTruthy_some_getD (o : Option String) (h : jsTruthy o = true) : o = some (o.getD "") := by
  cases o with
  | none => simp [jsTruthy] at h
  | some s => rfl

lemma pathMatchesSpec_spec (p : String) (h : pathMatchesSpec p = true) :
    ∃ ty id, jsSplitPath p = ["", ty, id] ∧ (ty = "album" ∨ ty = "playlist") ∧ id ≠ "" := by
  unfold pathMatchesSpec at h
  split at h
  case _ ty id heq =>
    simp only [Bool.and_eq_true, Bool.or_eq_true, beq_iff_eq, bne_iff_ne] at h
    exact ⟨ty, id, heq, h.1, h.2⟩
  case _ => exact Bool.noConfusion h

lemma getTracks_length : ∀ (items : List RawItem) (ts : List SpotifyTrack),
    getTracks items = some ts → ts.length = items.length := by
  intro items
  induction items with
  | nil =>
    intro ts h
    rw [getTracks] at h
    injection h with h
    rw [← h]
    rfl
  | cons it rest ih =>
    intro ts h
    rw [getTracks] at h
    cases hgi : getTrackOfItem it with
    | none => simp only [hgi] at h; exact Option.noConfusion h
    | some t =>
      cases hgr : getTracks rest with
      | none => simp only [hgi, hgr] at h; exact Option.noConfusion h
      | some ts' =>
        simp only [hgi, hgr, Option.some.injEq] at h
        rw [← h]
        simp [ih ts' hgr]

lemma accumulatePages_spec : ∀ (pages : List (List RawItem)) (acc l : List SpotifyTrack),
    accumulatePages pages acc = some l →
    ∃ tss, tracksPerPage pages = some tss ∧ l = acc ++ tss.flatten := by
  intro pages
  induction pages with
  | nil =>
    intro acc l h
    rw [accumulatePages] at h
    injection h with h
    exact ⟨[], rfl, by simp [← h]⟩
  | cons p ps ih =>
    intro acc l h
    rw [accumulatePages] at h
    cases hg : getTracks p with
    | none => simp only [hg] at h; exact Option.noConfusion h
    | some ts =>
      simp only [hg] at h
      obtain ⟨tss, htss, hl⟩ := ih (acc ++ ts) l h
      refine ⟨ts :: tss, ?_, ?_⟩
      · simp only [tracksPerPage, hg, htss]
      · rw [hl]
        simp

lemma tracksPerPage_length : ∀ (pages : List (List RawItem)) (tss : List (List SpotifyTrack)),
    tracksPerPage pages = some tss →
    tss.flatten.length = (pages.map List.length).sum := by
  intro pages
  induction pages with
  | nil =>
    intro tss h
    rw [tracksPerPage] at h
    injection h with h
    rw [← h]
    rfl
  | cons p ps ih =>
    intro tss h
    rw [tracksPerPage] at h
    cases hg : getTracks p with
    | none => simp only [hg] at h; exact Option.noConfusion h
    | some ts =>
      cases hr : tracksPerPage ps with
      | none => simp only [hg, hr] at h; exact Option.noConfusion h
      | some tss' =>
        simp only [hg, hr, Option.some.injEq] at h
        rw [← h]
        simp [getTracks_length p ts hg, ih tss' hr]

lemma getTrackOfItem_wellShaped (it : RawItem) (h : WellShapedItem it) :
    getTrackOfItem it = specNormalizeItem it ∧ (getTrackOfItem it).isSome = true := by
  rcases h with ⟨ht, htr⟩ | ⟨hid, htr⟩
  · cases hidv : it.id with
    | none => rw [hidv] at ht; simp [jsTruthy] at ht
    | some i =>
      rw [getTrackOfItem, if_pos ht]
      rw [specNormalizeItem]
      simp only [htr, hidv]
      constructor
      · rfl
      · rfl
  · cases htrv : it.track with
    | none => rw [htrv] at htr; simp at htr
    | some t =>
      have hfalse : jsTruthy it.id = false := by rw [hid]; rfl
      rw [getTrackOfItem, if_neg (by rw [hfalse]; exact Bool.false_ne_true)]
      rw [specNormalizeItem]
      simp only [htrv]
      exact ⟨rfl, rfl⟩

lemma fsLookup_overwrite (fs : FS) (p : String) (d : FileData)
    (h : fs.any (fun e => e.1 == p) = true) :
    fsLookup (fs.map (fun e => if e.1 == p then (p, d) else e)) p = some d := by
  induction fs with
  | nil => simp at h
  | cons e rest ih =>
    by_cases he : (e.1 == p) = true
    · simp only [List.map_cons, if_pos he]
      simp [fsLookup, List.find?_cons_of_pos]
    · have hef : (e.1 == p) = false := by
        revert he; cases (e.1 == p) <;> simp
      simp only [List.map_cons, if_neg he]
      have h' : rest.any (fun e => e.1 == p) = true := by
        simp [List.any_cons, hef] at h
        simp [h]
      rw [fsLookup, List.find?_cons_of_neg _ (by simp [hef])]
      exact ih h'

lemma fsLookup_append_new (fs : FS) (p : String) (d : FileData)
    (h : fs.any (fun e => e.1 == p) = false) :
    fsLookup (fs ++ [(p, d)]) p = some d := by
  induction fs with
  | nil => simp [fsLookup, List.find?_cons_of_pos]
  | cons e rest ih =>
    simp only [List.any_cons, Bool.or_eq_false_iff] at h
    rw [List.cons_append, fsLookup, List.find?_cons_of_neg _ (by simp [h.1])]
    exact ih h.2

lemma fsWrite_lookup (fs : FS) (p : String) (d : FileData) :
    fsLookup (fsWrite fs p d) p = some d := by
  rw [fsWrite]
  by_cases hex : fs.any (fun e => e.1 == p) = true
  · rw [if_pos hex]
    exact fsLookup_overwrite fs p d hex
  · have hex' : fs.any (fun e => e.1 == p) = false := by
      revert hex; cases fs.any (fun e => e.1 == p) <;> simp
    rw [if_neg (by rw [hex']; exact Bool.false_ne_true)]
    exact fsLookup_append_new fs p d hex'

/-!
## Claim theorems
-/

/-- A sample track used by concrete witnesses. -/
def trackA : SpotifyTrack := { id := "1", name := "Song A", artist := "Artist A" }

/-- A second sample track used by concrete witnesses. -/
def trackB : SpotifyTrack := { id := "2", name := "Song B", artist := "Artist B" }

/-- C1: at every reachable point of any run, the number of tracks recorded
in `success` plus the number recorded in `failures` is at most
`expectedCount`, which is the number of tracks of the resolved resource;
once all jobs have settled the sum equals `expectedCount` exactly. -/
theorem downloadStatus_sum_invariant (tracks : List SpotifyTrack) (oc : Nat → Nat → Bool)
    (s : RunState) (h : Reachable (initState tracks oc) s) :
    s.success.length + s.failures.length ≤ s.expectedCount ∧
    s.expectedCount = tracks.length ∧
    (allSettledB s = true → s.success.length + s.failures.length = s.expectedCount) := by
  have hinv := reachable_inv h
  have hsl : s.success.length + s.failures.length = settledCount s.jobs := by
    rw [hinv.hsucc.length_eq, hinv.hfail.length_eq, sum_lengths_eq_settledCount]
  have hlen : s.jobs.length = tracks.length := by
    rw [← hinv.htr, List.length_map]
  have hle : settledCount s.jobs ≤ s.jobs.length := List.countP_le_length _
  refine ⟨?_, hinv.hexp, ?_⟩
  · rw [hsl, hinv.hexp]
    omega
  · intro hall
    have hfull : settledCount s.jobs = s.jobs.length := by
      apply List.countP_eq_length.mpr
      intro j hj
      exact (List.all_eq_true.mp hall) j hj
    rw [hsl, hfull, hlen, hinv.hexp]

/-- Witness for C1 on a completed one-track run. -/
theorem downloadStatus_sum_invariant_witness :
    (runSchedule [0] (initState [trackA] (fun _ _ => true))).success.length +
        (runSchedule [0] (initState [trackA] (fun _ _ => true))).failures.length ≤
      (runSchedule [0] (initState [trackA] (fun _ _ => true))).expectedCount ∧
    (runSchedule [0] (initState [trackA] (fun _ _ => true))).expectedCount = [trackA].length ∧
    (allSettledB (runSchedule [0] (initState [trackA] (fun _ _ => true))) = true →
      (runSchedule [0] (initState [trackA] (fun _ _ => true))).success.length +
          (runSchedule [0] (initState [trackA] (fun _ _ => true))).failures.length =
        (runSchedule [0] (initState [trackA] (fun _ _ => true))).expectedCount) :=
  downloadStatus_sum_invariant [trackA] (fun _ _ => true) _
    (reachable_runSchedule [0] (initState [trackA] (fun _ _ => true)))

/-- C2: at completion, `success ++ failures` is a permutation of the
resolved track list (each job records exactly one terminal outcome), and
when the resolved tracks are pairwise distinct every track lies in
exactly one of the two collections — never both, never neither. -/
theorem settled_outcome_partition (tracks : List SpotifyTrack) (oc : Nat → Nat → Bool)
    (s : RunState) (h : Reachable (initState tracks oc) s) (hall : allSettledB s = true) :
    (s.success ++ s.failures).Perm tracks ∧
    (tracks.Nodup → ∀ t ∈ tracks,
      (t ∈ s.success ∧ t ∉ s.failures) ∨ (t ∈ s.failures ∧ t ∉ s.success)) := by
  have hinv := reachable_inv h
  have hallj : ∀ j ∈ s.jobs, j.state.isSettled = true := List.all_eq_true.mp hall
  have hperm : (s.success ++ s.failures).Perm tracks := by
    have h1 := (hinv.hsucc.append hinv.hfail).trans (settled_partition s.jobs hallj)
    rw [hinv.htr] at h1
    exact h1
  refine ⟨hperm, ?_⟩
  intro hnd t ht
  have hnd2 : (s.success ++ s.failures).Nodup := hperm.symm.nodup hnd
  have hmem : t ∈ s.success ++ s.failures := hperm.mem_iff.mpr ht
  have hdisj := List.disjoint_of_nodup_append hnd2
  rcases List.mem_append.mp hmem with h1 | h1
  · exact Or.inl ⟨h1, fun h2 => hdisj h1 h2⟩
  · exact Or.inr ⟨h1, fun h2 => hdisj h2 h1⟩

/-- Witness for C2 on a completed two-track run in which the first job
succeeds at once and the second exhausts its five attempts. -/
theorem settled_outcome_partition_witness :
    ((runSchedule [0, 1, 1, 1, 1, 1] (initState [trackA, trackB] (fun i _ => i == 0))).success ++
        (runSchedule [0, 1, 1, 1, 1, 1]
          (initState [trackA, trackB] (fun i _ => i == 0))).failures).Perm [trackA, trackB] ∧
    ([trackA, trackB].Nodup → ∀ t ∈ [trackA, trackB],
      (t ∈ (runSchedule [0, 1, 1, 1, 1, 1]
            (initState [trackA, trackB] (fun i _ => i == 0))).success ∧
        t ∉ (runSchedule [0, 1, 1, 1, 1, 1]
            (initState [trackA, trackB] (fun i _ => i == 0))).failures) ∨
      (t ∈ (runSchedule [0, 1, 1, 1, 1, 1]
            (initState [trackA, trackB] (fun i _ => i == 0))).failures ∧
        t ∉ (runSchedule [0, 1, 1, 1, 1, 1]
            (initState [trackA, trackB] (fun i _ => i == 0))).success)) :=
  settled_outcome_partition [trackA, trackB] (fun i _ => i == 0) _
    (reachable_runSchedule [0, 1, 1, 1, 1, 1] (initState [trackA, trackB] (fun i _ => i == 0)))
    (by decide)

/-- C3 counterexample: a run over an empty resolved track list is
complete from the start (all of its zero jobs are settled, so the count
of settled jobs equals `expectedCount`), no step is possible, and the
summary block has been emitted zero times — not exactly once as the
claim requires of every run. -/
theorem summary_empty_run_counterexample :
    allSettledB (initState [] (fun _ _ => true)) = true ∧
    runSchedule [0, 1, 2] (initState [] (fun _ _ => true)) = initState [] (fun _ _ => true) ∧
    (initState [] (fun _ _ => true)).summaryCount = 0 := by
  refine ⟨by decide, ?_, rfl⟩
  exact reachable_empty (reachable_runSchedule [0, 1, 2] (initState [] (fun _ _ => true)))

/-- C3 (amended): in every reachable state of a run, the summary block
has been emitted exactly once if the run has at least one track and all
jobs have settled, and zero times otherwise — so it is never emitted
twice, never emitted while a job is unsettled, and for a run with at
least one track it is emitted exactly once, at the update on which the
settled count first reaches `expectedCount`; a zero-track run never
emits it. -/
theorem summary_emission_characterization (tracks : List SpotifyTrack) (oc : Nat → Nat → Bool)
    (s : RunState) (h : Reachable (initState tracks oc) s) :
    s.summaryCount =
      if 0 < tracks.length ∧ s.success.length + s.failures.length = tracks.length then 1
      else 0 := by
  have hinv := reachable_inv h
  have hsl : s.success.length + s.failures.length = settledCount s.jobs := by
    rw [hinv.hsucc.length_eq, hinv.hfail.length_eq, sum_lengths_eq_settledCount]
  rw [hinv.hsum, hinv.hexp, hsl]

/-- Witness for C3 (amended) on a completed one-track run. -/
theorem summary_emission_characterization_witness :
    (runSchedule [0] (initState [trackB] (fun _ _ => true))).summaryCount =
      if 0 < [trackB].length ∧
          (runSchedule [0] (initState [trackB] (fun _ _ => true))).success.length +
              (runSchedule [0] (initState [trackB] (fun _ _ => true))).failures.length =
            [trackB].length then 1
      else 0 :=
  summary_emission_characterization [trackB] (fun _ _ => true) _
    (reachable_runSchedule [0] (initState [trackB] (fun _ _ => true)))

/-- C4: in every reachable state every job is consistent — an active job
has attempt counter below `maxRetries = 5` with all earlier attempts
failed, a succeeded job succeeded on some attempt `k < 5` after `k`
failures, an exhausted job failed all five attempts; the recorded
outcomes are exactly one per settled job (failed attempts leave no trace
in the tallies); settled jobs cannot step again; and the run can always
be completed — no per-track error escapes the retry loop. -/
theorem retry_bounded_contained (tracks : List SpotifyTrack) (oc : Nat → Nat → Bool)
    (s : RunState) (h : Reachable (initState tracks oc) s) :
    (∀ j ∈ s.jobs, ConsistentJob j) ∧
    s.success.Perm (succTracks s.jobs) ∧
    s.failures.Perm (exhTracks s.jobs) ∧
    (∀ i j, s.jobs[i]? = some j → j.state.isSettled = true → stepAt i s = none) ∧
    (∃ s', Reachable s s' ∧ allSettledB s' = true) := by
  have hinv := reachable_inv h
  refine ⟨hinv.hcons, hinv.hsucc, hinv.hfail, ?_, run_progress h⟩
  intro i j hj hset
  cases hst : j.state with
  | active a => rw [hst] at hset; simp [JobState.isSettled] at hset
  | succeeded => simp only [stepAt, hj, hst]
  | exhausted => simp only [stepAt, hj, hst]

/-- Witness for C4 on a one-track run whose five attempts all fail. -/
theorem retry_bounded_contained_witness :
    (∀ j ∈ (runSchedule [0, 0, 0, 0, 0] (initState [trackA] (fun _ _ => false))).jobs,
      ConsistentJob j) ∧
    (runSchedule [0, 0, 0, 0, 0] (initState [trackA] (fun _ _ => false))).success.Perm
      (succTracks (runSchedule [0, 0, 0, 0, 0] (initState [trackA] (fun _ _ => false))).jobs) ∧
    (runSchedule [0, 0, 0, 0, 0] (initState [trackA] (fun _ _ => false))).failures.Perm
      (exhTracks (runSchedule [0, 0, 0, 0, 0] (initState [trackA] (fun _ _ => false))).jobs) ∧
    (∀ i j, (runSchedule [0, 0, 0, 0, 0] (initState [trackA] (fun _ _ => false))).jobs[i]? = some j →
      j.state.isSettled = true →
      stepAt i (runSchedule [0, 0, 0, 0, 0] (initState [trackA] (fun _ _ => false))) = none) ∧
    (∃ s', Reachable (runSchedule [0, 0, 0, 0, 0] (initState [trackA] (fun _ _ => false))) s' ∧
      allSettledB s' = true) :=
  retry_bounded_contained [trackA] (fun _ _ => false) _
    (reachable_runSchedule [0, 0, 0, 0, 0] (initState [trackA] (fun _ _ => false)))

/-- C10: a run over a resource whose resolved track list is empty still
computes and ensures the destination directory, and under every schedule
the run terminates in the initial state: no download is attempted, the
`success` and `failures` collections stay empty, and the final summary
block is never emitted, because the summary check only runs inside a
job's completion handling and no job exists. -/
theorem empty_resource_run (san : String → String) (customPath : String)
    (data : SpotifyResource) (oc : Nat → Nat → Bool) (sched : List Nat)
    (h : data.tracks = []) :
    (runDriver san customPath data oc sched).1 = fullPathOf san customPath data ∧
    (runDriver san customPath data oc sched).2 = initState data.tracks oc ∧
    (runDriver san customPath data oc sched).2.summaryCount = 0 ∧
    (runDriver san customPath data oc sched).2.success = [] ∧
    (runDriver san customPath data oc sched).2.failures = [] ∧
    (∀ s, Reachable (initState data.tracks oc) s → s = initState data.tracks oc) := by
  have h2 : (runDriver san customPath data oc sched).2 = initState data.tracks oc := by
    show runSchedule sched (initState data.tracks oc) = initState data.tracks oc
    rw [h]
    exact reachable_empty (reachable_runSchedule sched (initState [] oc))
  refine ⟨rfl, h2, ?_, ?_, ?_, ?_⟩
  · rw [h2, h]; rfl
  · rw [h2, h]; rfl
  · rw [h2, h]; rfl
  · intro s hs
    rw [h] at hs ⊢
    exact reachable_empty hs

/-- Witness for C10 on a concrete empty album resource. -/
theorem empty_resource_run_witness :
    (runDriver (fun n => n) "/home/u/Downloads"
        { id := "r1", info := ResourceInfo.album "T" "A", tracks := [] }
        (fun _ _ => true) [0]).1 =
      fullPathOf (fun n => n) "/home/u/Downloads"
        { id := "r1", info := ResourceInfo.album "T" "A", tracks := [] } ∧
    (runDriver (fun n => n) "/home/u/Downloads"
        { id := "r1", info := ResourceInfo.album "T" "A", tracks := [] }
        (fun _ _ => true) [0]).2 = initState [] (fun _ _ => true) ∧
    (runDriver (fun n => n) "/home/u/Downloads"
        { id := "r1", info := ResourceInfo.album "T" "A", tracks := [] }
        (fun _ _ => true) [0]).2.summaryCount = 0 ∧
    (runDriver (fun n => n) "/home/u/Downloads"
        { id := "r1", info := ResourceInfo.album "T" "A", tracks := [] }
        (fun _ _ => true) [0]).2.success = [] ∧
    (runDriver (fun n => n) "/home/u/Downloads"
        { id := "r1", info := ResourceInfo.album "T" "A", tracks := [] }
        (fun _ _ => true) [0]).2.failures = [] ∧
    (∀ s, Reachable (initState ([] : List SpotifyTrack) (fun _ _ => true)) s →
      s = initState [] (fun _ _ => true)) :=
  empty_resource_run (fun n => n) "/home/u/Downloads"
    { id := "r1", info := ResourceInfo.album "T" "A", tracks := [] }
    (fun _ _ => true) [0] rfl

/-- Unfolding lemma for `getSpotifyAccessToken`. -/
lemma getSpotifyAccessToken_eq (cache : Option String) (resp : Option (Option String)) :
    getSpotifyAccessToken cache resp =
      if jsTruthy cache then (cache, false, Except.ok cache)
      else
        match resp with
        | none => (cache, true, Except.error "Failed to get access token")
        | some tok => (tok, true, Except.ok tok) := rfl

/-- C5 counterexample: when the token endpoint responds without a token
field, the call returns that absent value without raising any error, and
nothing is cached, so a process making two acquisitions contacts the
endpoint twice — refuting both the at-most-one-fetch-per-process claim
and the fails-when-no-token claim. -/
theorem token_cache_counterexample :
    (runTokenCalls none [some none, some none]).2.1 = 2 ∧
    (runTokenCalls none [some none, some none]).2.2.all tokenCallOk = true := by
  exact ⟨rfl, rfl⟩

/-- C5 (amended): a truthy cached token is returned by every later
acquisition without contacting the endpoint (so after one successful
fetch of a non-empty token the endpoint is never contacted again); with
no usable cache, an unreachable endpoint makes the call fail with the
access-token error, while a response carrying no token is returned as is
— without an error and without establishing a cache. -/
theorem token_cache_behaviour (cache : Option String) (resp : Option (Option String))
    (resps : List (Option (Option String))) :
    (jsTruthy cache = true →
      getSpotifyAccessToken cache resp = (cache, false, Except.ok cache) ∧
      runTokenCalls cache resps = (cache, 0, resps.map (fun _ => Except.ok cache))) ∧
    (jsTruthy cache = false →
      getSpotifyAccessToken cache none = (cache, true, Except.error "Failed to get access token") ∧
      ∀ tok, getSpotifyAccessToken cache (some tok) = (tok, true, Except.ok tok)) := by
  constructor
  · intro ht
    refine ⟨?_, runTokenCalls_cached cache ht resps⟩
    rw [getSpotifyAccessToken_eq, if_pos ht]
  · intro hf
    have hnt : ¬ (jsTruthy cache = true) := by rw [hf]; exact Bool.false_ne_true
    constructor
    · rw [getSpotifyAccessToken_eq, if_neg hnt]
    · intro tok
      rw [getSpotifyAccessToken_eq, if_neg hnt]

/-- Witness for C5 (amended) at a cached and an uncached process state. -/
theorem token_cache_behaviour_witness :
    getSpotifyAccessToken (some "tok") (some (some "other")) =
      (some "tok", false, Except.ok (some "tok")) ∧
    runTokenCalls (some "tok") [none, some none] =
      (some "tok", 0, [Except.ok (some "tok"), Except.ok (some "tok")]) ∧
    getSpotifyAccessToken none none = (none, true, Except.error "Failed to get access token") :=
  ⟨((token_cache_behaviour (some "tok") (some (some "other")) [none, some none]).1 (by decide)).1,
    ((token_cache_behaviour (some "tok") (some (some "other")) [none, some none]).1 (by decide)).2,
    ((token_cache_behaviour none (some (some "x")) []).2 rfl).1⟩

/-- Zeta-reduced form of `parseSpotifyUrl`. -/
lemma parseSpotifyUrl_eq (u : SpotifyUrl) :
    parseSpotifyUrl u =
      if jsIncludes u.hostname "spotify.com" = false then
        Except.error "Invalid domain. Only Spotify URLs are supported."
      else if ((jsSplitPath u.pathname)[1]? == some "album" ||
            (jsSplitPath u.pathname)[1]? == some "playlist") &&
          jsTruthy (jsSplitPath u.pathname)[2]? then
        Except.ok (((jsSplitPath u.pathname)[1]?).getD "", ((jsSplitPath u.pathname)[2]?).getD "")
      else Except.error "Invalid Spotify URL. Must be a valid album or playlist URL." := rfl

/-- C6 counterexample: the URL host open.spotify.com with path
/album/abc/extra is accepted by the code, which returns the type "album"
and the id "abc" while ignoring the extra path segment, although the
path does not match the two-segment pattern the claim requires for
success. -/
theorem parseSpotifyUrl_counterexample :
    (parseSpotifyUrl { hostname := "open.spotify.com", pathname := "/album/abc/extra" }).toOption =
      some ("album", "abc") ∧
    pathMatchesSpec "/album/abc/extra" = false := by
  exact ⟨by decide, by decide⟩

/-- C6 (amended): parsing succeeds exactly when the hostname contains
"spotify.com", the second slash-separated path part is "album" or
"playlist", and a truthy (present, non-empty) third path part exists —
segments beyond the third are ignored; on success the returned type and
id are those two parts; and every URL whose path literally matches the
two-segment /(album|playlist)/(id) pattern with a spotify.com host is
accepted. -/
theorem parseSpotifyUrl_characterization (u : SpotifyUrl) :
    ((parseSpotifyUrl u).toOption.isSome = true ↔
      (jsIncludes u.hostname "spotify.com" = true ∧
        ((jsSplitPath u.pathname)[1]? = some "album" ∨
          (jsSplitPath u.pathname)[1]? = some "playlist") ∧
        jsTruthy (jsSplitPath u.pathname)[2]? = true)) ∧
    (∀ ty i, (parseSpotifyUrl u).toOption = some (ty, i) →
      (jsSplitPath u.pathname)[1]? = some ty ∧ (jsSplitPath u.pathname)[2]? = some i) ∧
    (jsIncludes u.hostname "spotify.com" = true → pathMatchesSpec u.pathname = true →
      (parseSpotifyUrl u).toOption.isSome = true) := by
  rw [parseSpotifyUrl_eq]
  cases hb : jsIncludes u.hostname "spotify.com" with
  | false =>
    rw [if_pos rfl]
    refine ⟨?_, ?_, ?_⟩
    · constructor
      · intro habs; simp [Except.toOption] at habs
      · rintro ⟨h1, _⟩; exact Bool.noConfusion h1
    · intro ty i habs; simp [Except.toOption] at habs
    · intro h1; exact Bool.noConfusion h1
  | true =>
    rw [if_neg (by exact fun hh => Bool.noConfusion hh)]
    by_cases hcond : (((jsSplitPath u.pathname)[1]? == some "album" ||
        (jsSplitPath u.pathname)[1]? == some "playlist") &&
        jsTruthy (jsSplitPath u.pathname)[2]?) = true
    · rw [if_pos hcond]
      rw [Bool.and_eq_true, Bool.or_eq_true, beq_iff_eq, beq_iff_eq] at hcond
      obtain ⟨h1, h2⟩ := hcond
      refine ⟨?_, ?_, ?_⟩
      · constructor
        · intro _; exact ⟨rfl, h1, h2⟩
        · intro _; simp [Except.toOption]
      · intro ty i hok
        simp only [Except.toOption, Option.some.injEq, Prod.mk.injEq] at hok
        constructor
        · rw [← hok.1]
          rcases h1 with hA | hA <;> rw [hA] <;> rfl
        · rw [← hok.2]
          exact jsTruthy_some_getD _ h2
      · intro _ _; simp [Except.toOption]
    · rw [if_neg hcond]
      refine ⟨?_, ?_, ?_⟩
      · constructor
        · intro habs; simp [Except.toOption] at habs
        · rintro ⟨_, h1, h2⟩
          exfalso
          apply hcond
          rw [Bool.and_eq_true, Bool.or_eq_true, beq_iff_eq, beq_iff_eq]
          exact ⟨h1, h2⟩
      · intro ty i habs; simp [Except.toOption] at habs
      · intro _ hmatch
        exfalso
        apply hcond
        obtain ⟨ty, id, hsp, hty, hid⟩ := pathMatchesSpec_spec u.pathname hmatch
        rw [Bool.and_eq_true, Bool.or_eq_true, beq_iff_eq, beq_iff_eq, hsp]
        refine ⟨?_, ?_⟩
        · rcases hty with rfl | rfl
          · exact Or.inl rfl
          · exact Or.inr rfl
        · simp [jsTruthy, hid]

/-- Witness for C6 (amended): a well-formed playlist URL is accepted. -/
theorem parseSpotifyUrl_characterization_witness :
    (parseSpotifyUrl { hostname := "open.spotify.com", pathname := "/playlist/xyz9" }).toOption.isSome
      = true :=
  (parseSpotifyUrl_characterization
    { hostname := "open.spotify.com", pathname := "/playlist/xyz9" }).1.mpr (by decide)

/-- C7: whenever resolution of a paginated listing succeeds, the
resolved track list is exactly the concatenation of the per-page
normalized track lists, first page first and then each followed page in
fetch order, and its length is the sum of all pages' item counts. -/
theorem pagination_preserves (firstItems : List RawItem) (restPages : List (List RawItem))
    (l : List SpotifyTrack) (h : getSpotifyResourceTracks firstItems restPages = some l) :
    ∃ tss, tracksPerPage (firstItems :: restPages) = some tss ∧
      l = tss.flatten ∧
      l.length = ((firstItems :: restPages).map List.length).sum := by
  rw [getSpotifyResourceTracks] at h
  cases hg : getTracks firstItems with
  | none => simp only [hg] at h; exact Option.noConfusion h
  | some ts =>
    simp only [hg] at h
    obtain ⟨tss, htss, hl⟩ := accumulatePages_spec restPages ts l h
    refine ⟨ts :: tss, ?_, ?_, ?_⟩
    · simp only [tracksPerPage, hg, htss]
    · rw [hl]
      simp
    · rw [hl]
      simp [getTracks_length firstItems ts hg, tracksPerPage_length restPages tss htss]

/-- A flat (album-style) raw item used by concrete witnesses. -/
def flatItem : RawItem :=
  { id := some "f1", name := "Flat", artists := [{ name := "X" }], track := none }

/-- A wrapped (playlist-style) raw item used by concrete witnesses. -/
def wrappedItem : RawItem :=
  { id := none, name := "", artists := [],
    track := some { id := "w1", name := "Wrapped", artists := [{ name := "Y" }, { name := "Z" }] } }

/-- Witness for C7 on a two-page listing. -/
theorem pagination_preserves_witness :
    ∃ tss, tracksPerPage ([flatItem] :: [[wrappedItem]]) = some tss ∧
      [{ id := "f1", name := "Flat", artist := "X" },
        { id := "w1", name := "Wrapped", artist := "Y, Z" }] = tss.flatten ∧
      ([{ id := "f1", name := "Flat", artist := "X" },
        { id := "w1", name := "Wrapped", artist := "Y, Z" }] : List SpotifyTrack).length =
        (([flatItem] :: [[wrappedItem]]).map List.length).sum :=
  pagination_preserves [flatItem] [[wrappedItem]]
    [{ id := "f1", name := "Flat", artist := "X" },
      { id := "w1", name := "Wrapped", artist := "Y, Z" }] (by decide)

/-- C8: on a list of items that are each flat (a track directly) or
wrapped (a nested track object), `getTracks` succeeds and returns, in
order, exactly the spec-side normalization of each item — a Track built
from the item's own fields or from its nested track object, whose artist
field is the comma-space join of the contributing-artist names in their
original order. -/
theorem getTracks_normalizes (items : List RawItem) (h : ∀ it ∈ items, WellShapedItem it) :
    ∃ l, getTracks items = some l ∧ specNormalizeItems items = some l ∧
      l.length = items.length := by
  induction items with
  | nil => exact ⟨[], rfl, rfl, rfl⟩
  | cons it rest ih =>
    obtain ⟨l, hg, hs, hl⟩ := ih (fun x hx => h x (List.mem_cons_of_mem _ hx))
    obtain ⟨heq, hsome⟩ := getTrackOfItem_wellShaped it (h it (List.mem_cons_self _ _))
    cases hgi : getTrackOfItem it with
    | none => rw [hgi] at hsome; simp at hsome
    | some t =>
      refine ⟨t :: l, ?_, ?_, ?_⟩
      · simp only [getTracks, hgi, hg]
      · have hsp : specNormalizeItem it = some t := by rw [← heq, hgi]
        simp only [specNormalizeItems, hsp, hs]
      · simp [hl]

/-- Witness for C8 on one flat and one wrapped item. -/
theorem getTracks_normalizes_witness :
    ∃ l, getTracks [flatItem, wrappedItem] = some l ∧
      specNormalizeItems [flatItem, wrappedItem] = some l ∧
      l.length = [flatItem, wrappedItem].length :=
  getTracks_normalizes [flatItem, wrappedItem] (by decide)

/-- C9: when the lookup succeeds, both binary fetches succeed, the audio
file is written, and tag embedding then reports failure, the call fails
with the tagging error while the filesystem still holds the written
audio file at its path, with no cleanup or deletion on this error
path — the resulting filesystem is exactly the input plus that write. -/
theorem downloadTrack_tag_failure (env : DownloadEnv) (track : SpotifyTrack) (saveTo : String)
    (index : Option Nat) (fs : FS) (resp : LookupResponse) (md : TrackMetadata) (b1 b2 : Nat)
    (hr : env.resp = some resp) (hs : resp.success = true) (hm : resp.metadata = some md)
    (h1 : env.fetchBinary resp.link = some b1) (h2 : env.fetchBinary md.cover = some b2)
    (ht : env.tagWriteOk = false) :
    (downloadTrack env track saveTo index fs).2 =
      Except.error ("Failed to tag the MP3 file: " ++ env.san (getTrackName track ++ ".mp3")) ∧
    (downloadTrack env track saveTo index fs).1 =
      fsWrite fs (saveTo ++ "/" ++ env.san (getTrackName track ++ ".mp3")) (b1, none) ∧
    fsLookup (downloadTrack env track saveTo index fs).1
      (saveTo ++ "/" ++ env.san (getTrackName track ++ ".mp3")) = some (b1, none) := by
  have hred : downloadTrack env track saveTo index fs =
      (fsWrite fs (saveTo ++ "/" ++ env.san (getTrackName track ++ ".mp3")) (b1, none),
        Except.error ("Failed to tag the MP3 file: " ++ env.san (getTrackName track ++ ".mp3"))) := by
    simp only [downloadTrack, hr, hs, hm, h1, h2, ht, Bool.false_eq_true, if_false]
  rw [hred]
  exact ⟨rfl, rfl, fsWrite_lookup fs _ _⟩

/-- Metadata fixture for the C9 witness. -/
def tagFailMeta : TrackMetadata := { title := "T", artists := "A", album := "Al", cover := "C" }

/-- Lookup-response fixture for the C9 witness. -/
def tagFailResp : LookupResponse := { success := true, metadata := some tagFailMeta, link := "L" }

/-- Environment fixture for the C9 witness: all fetches succeed, tag
embedding fails. -/
def tagFailEnv : DownloadEnv :=
  { resp := some tagFailResp,
    fetchBinary := fun u => if u == "L" then some 7 else some 9,
    tagWriteOk := false,
    san := fun n => n }

/-- Witness for C9 on a concrete environment whose tag embedding fails. -/
theorem downloadTrack_tag_failure_witness :
    (downloadTrack tagFailEnv trackA "/dl" (some 0) []).2 =
      Except.error ("Failed to tag the MP3 file: " ++
        tagFailEnv.san (getTrackName trackA ++ ".mp3")) ∧
    (downloadTrack tagFailEnv trackA "/dl" (some 0) []).1 =
      fsWrite [] ("/dl" ++ "/" ++ tagFailEnv.san (getTrackName trackA ++ ".mp3")) (7, none) ∧
    fsLookup (downloadTrack tagFailEnv trackA "/dl" (some 0) []).1
      ("/dl" ++ "/" ++ tagFailEnv.san (getTrackName trackA ++ ".mp3")) = some (7, none) :=
  downloadTrack_tag_failure tagFailEnv trackA "/dl" (some 0) [] tagFailResp tagFailMeta 7 9
    rfl rfl rfl (by decide) (by decide) rfl

end SpotifyDl

